import Mathlib

/-!
Verification of the `pngme` PNG chunk library.

The definitions below shallowly embed the Rust sources:
- `src/chunk_type.rs`: `ChunkType`, its property-bit predicates, and its
  fallible constructors;
- `src/chunk.rs`: the compile-time CRC-32 table, `Chunk`, its constructor,
  serializer (`as_bytes`) and parser (`try_from`);
- `src/commands.rs`: the encode-time type-tag policy.

Bytes (`u8`) are embedded as `Nat` (call sites carry `< 256` bounds where the
Rust type system guarantees them), `u32` values as `Nat` below `2^32`, byte
buffers as `List Nat`, and fallible operations as `Except PngError`.
-/

set_option maxRecDepth 4000

deriving instance DecidableEq for Except

/-- Closed taxonomy of the error conditions raised by the library (the Rust
code uses `anyhow` with one distinct message per failure site; each variant
here corresponds to exactly one such site, carrying its diagnostic payload). -/
inductive PngError where
  | invalidTypeByte (b : Nat)
  | invalidTypeLength (s : List Nat)
  | dataTooLarge (n : Nat)
  | chunkTooShort (n : Nat)
  | chunkLengthMismatch (expected received : Nat)
  | chunkCrcMismatch (declared computed : Nat)
  | policyViolation
deriving DecidableEq

/-- `u32::to_be_bytes`: big-endian byte decomposition of a 32-bit value. -/
def u32ToBeBytes (n : Nat) : List Nat :=
  [n / 2 ^ 24 % 256, n / 2 ^ 16 % 256, n / 2 ^ 8 % 256, n % 256]

/-- `u32::from_be_bytes`: big-endian recomposition of four bytes. -/
def u32FromBeBytes (b0 b1 b2 b3 : Nat) : Nat :=
  b0 * 2 ^ 24 + b1 * 2 ^ 16 + b2 * 2 ^ 8 + b3

/-- `u8::is_ascii_uppercase`. -/
def is_ascii_uppercase (b : Nat) : Bool :=
  decide (0x41 ≤ b ∧ b ≤ 0x5A)

/-- `ChunkType` (src/chunk_type.rs): the field `inner : [u8; 4]` is embedded
as four byte fields `b0 b1 b2 b3`. -/
structure ChunkType where
  b0 : Nat
  b1 : Nat
  b2 : Nat
  b3 : Nat
deriving DecidableEq

namespace ChunkType

/-- `ChunkType::bytes`. -/
def bytes (t : ChunkType) : List Nat := [t.b0, t.b1, t.b2, t.b3]

/-- `ChunkType::is_critical`: bit 5 of byte 0 is clear. -/
def is_critical (t : ChunkType) : Bool := ((t.b0 >>> 5) &&& 1) == 0

/-- `ChunkType::is_public`: bit 5 of byte 1 is clear. -/
def is_public (t : ChunkType) : Bool := ((t.b1 >>> 5) &&& 1) == 0

/-- `ChunkType::is_reserved_bit_valid`: bit 5 of byte 2 is clear. -/
def is_reserved_bit_valid (t : ChunkType) : Bool := ((t.b2 >>> 5) &&& 1) == 0

/-- `ChunkType::is_safe_to_copy`: bit 5 of byte 3 is set. -/
def is_safe_to_copy (t : ChunkType) : Bool := ((t.b3 >>> 5) &&& 1) == 1

/-- `ChunkType::is_valid`: delegates to `is_reserved_bit_valid`. -/
def is_valid (t : ChunkType) : Bool := t.is_reserved_bit_valid

/-- `<ChunkType as TryFrom<[u8; 4]>>::try_from`: for each byte in order,
clear bit 5 (`b & !0x20`, i.e. `b &&& 0xDF`) and require the result to be an
ASCII uppercase letter; the first offending byte aborts with
`invalidTypeByte`. -/
def try_from (b0 b1 b2 b3 : Nat) : Except PngError ChunkType :=
  if !is_ascii_uppercase (b0 &&& 0xDF) then .error (.invalidTypeByte b0)
  else if !is_ascii_uppercase (b1 &&& 0xDF) then .error (.invalidTypeByte b1)
  else if !is_ascii_uppercase (b2 &&& 0xDF) then .error (.invalidTypeByte b2)
  else if !is_ascii_uppercase (b3 &&& 0xDF) then .error (.invalidTypeByte b3)
  else .ok ⟨b0, b1, b2, b3⟩

/-- `<ChunkType as FromStr>::from_str`: the string is embedded as its byte
list; requires exactly 4 bytes, then delegates to the byte constructor. -/
def from_str (s : List Nat) : Except PngError ChunkType :=
  if s.length ≠ 4 then .error (.invalidTypeLength s)
  else try_from (s.getD 0 0) (s.getD 1 0) (s.getD 2 0) (s.getD 3 0)

end ChunkType

/-- One step of the compile-time table computation in
`precompute_crc_table` (src/chunk.rs): the body of the inner `j` loop. -/
def crcStep (crc : Nat) : Nat :=
  if crc &&& 1 = 1 then 0xEDB88320 ^^^ (crc >>> 1) else crc >>> 1

/-- `CRC_TABLE` / `precompute_crc_table`: the 256-entry array is embedded as
a function on indices; entry `i` is eight `crcStep` iterations from `i`. -/
def CRC_TABLE (i : Nat) : Nat := crcStep^[8] i

/-- The per-byte update in `Chunk::compute_crc`:
`crc = CRC_TABLE[((crc ^ b) & 0xFF) as usize] ^ (crc >> 8)`. -/
def updateCrc (crc b : Nat) : Nat :=
  CRC_TABLE ((crc ^^^ b) &&& 0xFF) ^^^ (crc >>> 8)

/-- `Chunk` (src/chunk.rs). -/
structure Chunk where
  length : Nat
  chunk_type : ChunkType
  data : List Nat
  crc : Nat
deriving DecidableEq

namespace Chunk

/-- `Chunk::compute_crc`: running value starts at `0xFFFFFFFF`, is updated
byte-by-byte over the type bytes chained with the data bytes, and is finally
XORed with `0xFFFFFFFF`. -/
def compute_crc (chunk_ty : List Nat) (data : List Nat) : Nat :=
  ((chunk_ty ++ data).foldl updateCrc 0xFFFFFFFF) ^^^ 0xFFFFFFFF

/-- `Chunk::new`: fails with `dataTooLarge` when the data exceeds
`i32::MAX = 2^31 - 1` bytes, otherwise stores the data's length and the CRC
computed over type bytes followed by data. -/
def new (chunk_type : ChunkType) (data : List Nat) : Except PngError Chunk :=
  if data.length ≤ 2147483647 then
    .ok { length := data.length
          chunk_type := chunk_type
          data := data
          crc := compute_crc chunk_type.bytes data }
  else
    .error (.dataTooLarge data.length)

/-- `Chunk::size`: `size_of::<u32>() * 2 + size_of::<ChunkType>() + data.len()`. -/
def size (c : Chunk) : Nat := 4 * 2 + 4 + c.data.length

/-- Models `copy_from_slice` into `buf[off .. off + src.length]`. -/
def writeRange (buf : List Nat) (off : Nat) (src : List Nat) : List Nat :=
  buf.take off ++ src ++ buf.drop (off + src.length)

/-- `Chunk::as_bytes`: a buffer of `size` bytes is allocated (the
uninitialized buffer is modeled by zeros; every position is overwritten) and
filled at increasing offsets: big-endian length, type bytes, data (skipped
when empty, leaving the offset at 8), big-endian CRC. -/
def as_bytes (c : Chunk) : List Nat :=
  let chunk_size := c.size
  let bytes0 := List.replicate chunk_size 0
  let bytes1 := writeRange bytes0 0 (u32ToBeBytes c.length)
  let bytes2 := writeRange bytes1 4 c.chunk_type.bytes
  let bytes3 := if c.data.isEmpty then bytes2 else writeRange bytes2 8 c.data
  let off := if c.data.isEmpty then 8 else 8 + c.data.length
  writeRange bytes3 off (u32ToBeBytes c.crc)

/-- `<Chunk as TryFrom<&[u8]>>::try_from`: requires at least 12 bytes, reads
the big-endian length from bytes 0-3, the chunk type from bytes 4-7, takes
bytes `8 .. len - 4` as data, checks the declared length against the data
length, reads the trailing big-endian CRC, and checks it against the CRC
recomputed over type bytes and data — in that order. -/
def try_from (bytes : List Nat) : Except PngError Chunk :=
  let chunk_len := bytes.length
  if chunk_len < 12 then
    .error (.chunkTooShort chunk_len)
  else
    let length := u32FromBeBytes (bytes.getD 0 0) (bytes.getD 1 0)
      (bytes.getD 2 0) (bytes.getD 3 0)
    match ChunkType.try_from (bytes.getD 4 0) (bytes.getD 5 0)
      (bytes.getD 6 0) (bytes.getD 7 0) with
    | .error e => .error e
    | .ok chunk_type =>
      let data := (bytes.drop 8).take (chunk_len - 12)
      if length ≠ data.length then
        .error (.chunkLengthMismatch length data.length)
      else
        let crc := u32FromBeBytes (bytes.getD (chunk_len - 4) 0)
          (bytes.getD (chunk_len - 3) 0) (bytes.getD (chunk_len - 2) 0)
          (bytes.getD (chunk_len - 1) 0)
        let computed_crc := compute_crc chunk_type.bytes data
        if crc ≠ computed_crc then
          .error (.chunkCrcMismatch crc computed_crc)
        else
          .ok { length := length, chunk_type := chunk_type, data := data, crc := crc }

end Chunk

/-- Modelled from the spec: `src/png.rs` is not among the sources; §3
"PngDatastream" describes an ordered sequence of Chunks behind the fixed
8-byte signature. Only the chunk sequence is needed here. -/
structure PNG where
  chunks : List Chunk
deriving DecidableEq

/-- Modelled from the spec: §4.3 `append_chunk` "pushes chunk to the end of
the ordered sequence", with no validation at this layer. -/
def PNG.append_chunk (p : PNG) (c : Chunk) : PNG := ⟨p.chunks ++ [c]⟩

/-- `invoke_encode` (src/commands.rs), restricted to its core: the
surrounding file I/O (`png_parse`, `png_write_to_file`) is replaced by taking
the already-parsed `PNG` and returning the mutated one. The caller-chosen
type tag is parsed, rejected with a policy error when it is critical, or
public, or not valid, or not safe-to-copy, and otherwise a chunk built from
the tag and message is appended to the datastream. -/
def invoke_encode (png : PNG) (chunk_type : List Nat) (message : List Nat) :
    Except PngError PNG :=
  match ChunkType.from_str chunk_type with
  | .error e => .error e
  | .ok ct =>
    if ct.is_critical || ct.is_public || !ct.is_valid || !ct.is_safe_to_copy then
      .error .policyViolation
    else
      match Chunk.new ct message with
      | .error e => .error e
      | .ok chunk => .ok (png.append_chunk chunk)

/-- One bit-processing step of the reference reflected CRC-32 (ISO-HDLC)
definition: shift right by one, conditionally XORing the reflected polynomial
`0xEDB88320` when the low bit was set. Written from the specification's
wording, independently of the code's table machinery, for comparison. -/
def refBitStep (c : Nat) : Nat :=
  if c % 2 = 1 then 0xEDB88320 ^^^ (c / 2) else c / 2

/-- The reference bitwise reflected CRC-32 (ISO-HDLC) of a message: running
value initialized to `0xFFFFFFFF`, each byte XORed into the register followed
by eight single-bit steps, final value XORed with `0xFFFFFFFF`. Written from
the specification's wording for comparison with `Chunk.compute_crc`. -/
def referenceCrc32 (msg : List Nat) : Nat :=
  (msg.foldl (fun crc b => refBitStep^[8] (crc ^^^ b)) 0xFFFFFFFF) ^^^ 0xFFFFFFFF

/-- Flip bit `j` of the byte at position `p` of a buffer. -/
def flipBit (buf : List Nat) (p j : Nat) : List Nat :=
  buf.set p (buf.getD p 0 ^^^ (1 <<< j))

/-- The well-formedness every `Chunk` produced by the Rust constructors
enjoys: the length field caches the data length and fits in `u32`, all bytes
are genuine `u8` values, the chunk type passes its own constructor, and the
CRC field is the checksum of type bytes followed by data. -/
def Chunk.Valid (c : Chunk) : Prop :=
  c.length = c.data.length ∧
  c.data.length < 2 ^ 32 ∧
  c.chunk_type.b0 < 256 ∧ c.chunk_type.b1 < 256 ∧
  c.chunk_type.b2 < 256 ∧ c.chunk_type.b3 < 256 ∧
  ChunkType.try_from c.chunk_type.b0 c.chunk_type.b1 c.chunk_type.b2
    c.chunk_type.b3 = .ok c.chunk_type ∧
  (∀ b ∈ c.data, b < 256) ∧
  c.crc = Chunk.compute_crc c.chunk_type.bytes c.data

instance (c : Chunk) : Decidable c.Valid := by
  unfold Chunk.Valid
  infer_instance

/-- A concrete sample chunk with tag `RuSt` and a one-byte payload. -/
def sampleChunk : Chunk :=
  { length := 1
    chunk_type := ⟨82, 117, 83, 116⟩
    data := [42]
    crc := Chunk.compute_crc [82, 117, 83, 116] [42] }

/-- The specification's phrase "every byte is an ASCII letter": uppercase
`A..Z` (0x41-0x5A) or lowercase `a..z` (0x61-0x7A). -/
def isAsciiLetter (b : Nat) : Prop :=
  (0x41 ≤ b ∧ b ≤ 0x5A) ∨ (0x61 ≤ b ∧ b ≤ 0x7A)

instance (b : Nat) : Decidable (isAsciiLetter b) := by
  unfold isAsciiLetter
  infer_instance

/-- A chunk whose data is 2^31 zero bytes: one byte beyond what `Chunk::new`
accepts, yet with a well-formed serialization. -/
def bigChunk : Chunk :=
  { length := 2 ^ 31
    chunk_type := ⟨82, 117, 83, 116⟩
    data := List.replicate (2 ^ 31) 0
    crc := Chunk.compute_crc [82, 117, 83, 116] (List.replicate (2 ^ 31) 0) }

/-- The high bytes (`>>> 24`) of the 256 CRC table entries, written out; used
to establish that the table's high bytes are pairwise distinct, which makes
the per-byte CRC update invertible. -/
def tableHiList : List Nat :=
  [0, 119, 238, 153, 7, 112, 233, 158, 14, 121, 224, 151, 9, 126, 231, 144,
   29, 106, 243, 132, 26, 109, 244, 131, 19, 100, 253, 138, 20, 99, 250, 141,
   59, 76, 213, 162, 60, 75, 210, 165, 53, 66, 219, 172, 50, 69, 220, 171,
   38, 81, 200, 191, 33, 86, 207, 184, 40, 95, 198, 177, 47, 88, 193, 182,
   118, 1, 152, 239, 113, 6, 159, 232, 120, 15, 150, 225, 127, 8, 145, 230,
   107, 28, 133, 242, 108, 27, 130, 245, 101, 18, 139, 252, 98, 21, 140, 251,
   77, 58, 163, 212, 74, 61, 164, 211, 67, 52, 173, 218, 68, 51, 170, 221,
   80, 39, 190, 201, 87, 32, 185, 206, 94, 41, 176, 199, 89, 46, 183, 192,
   237, 154, 3, 116, 234, 157, 4, 115, 227, 148, 13, 122, 228, 147, 10, 125,
   240, 135, 30, 105, 247, 128, 25, 110, 254, 137, 16, 103, 249, 142, 23, 96,
   214, 161, 56, 79, 209, 166, 63, 72, 216, 175, 54, 65, 223, 168, 49, 70,
   203, 188, 37, 82, 204, 187, 34, 85, 197, 178, 43, 92, 194, 181, 44, 91,
   155, 236, 117, 2, 156, 235, 114, 5, 149, 226, 123, 12, 146, 229, 124, 11,
   134, 241, 104, 31, 129, 246, 111, 24, 136, 255, 102, 17, 143, 248, 97, 22,
   160, 215, 78, 57, 167, 208, 73, 62, 174, 217, 64, 55, 169, 222, 71, 48,
   189, 202, 83, 36, 186, 205, 84, 35, 179, 196, 93, 42, 180, 195, 90, 45]

/-! ## Bitwise toolkit -/

theorem xor_shiftRight_distrib (a b k : Nat) :
    (a ^^^ b) >>> k = (a >>> k) ^^^ (b >>> k) := by
  apply Nat.eq_of_testBit_eq
  intro i
  simp [Nat.testBit_shiftRight, Nat.testBit_xor]

theorem xor_mod_two_pow_distrib (a b k : Nat) :
    (a ^^^ b) % 2 ^ k = a % 2 ^ k ^^^ b % 2 ^ k := by
  apply Nat.eq_of_testBit_eq
  intro i
  simp only [Nat.testBit_mod_two_pow, Nat.testBit_xor]
  by_cases h : i < k <;> simp [h]

theorem and_255_eq_mod (a : Nat) : a &&& 0xFF = a % 2 ^ 8 := by
  have h : (0xFF : Nat) = 2 ^ 8 - 1 := by norm_num
  rw [h, Nat.and_pow_two_sub_one_eq_mod]

theorem and_255_lt_256 (a : Nat) : a &&& 0xFF < 256 := by
  rw [and_255_eq_mod]
  have h := Nat.mod_lt a (y := 2 ^ 8) (by norm_num)
  have h2 : (2 : Nat) ^ 8 = 256 := by norm_num
  omega

theorem xor_left_cancel {a b c : Nat} (h : a ^^^ b = a ^^^ c) : b = c := by
  have h2 := congrArg (fun z => a ^^^ z) h
  simpa only [Nat.xor_cancel_left] using h2

theorem xor_right_cancel {a b c : Nat} (h : a ^^^ c = b ^^^ c) : a = b := by
  have h2 := congrArg (fun z => z ^^^ c) h
  simpa only [Nat.xor_cancel_right] using h2

theorem xor_left_comm (a b c : Nat) : a ^^^ (b ^^^ c) = b ^^^ (a ^^^ c) := by
  rw [← Nat.xor_assoc, Nat.xor_comm a b, Nat.xor_assoc]

/-! ## CRC algebra: the table-driven byte update is linear, invertible, and
agrees with the bitwise definition. -/

theorem crcStep_xor (a b : Nat) : crcStep (a ^^^ b) = crcStep a ^^^ crcStep b := by
  unfold crcStep
  simp only [Nat.and_one_is_mod]
  have hx : (a ^^^ b) % 2 = a % 2 ^^^ b % 2 := by
    simpa using xor_mod_two_pow_distrib a b 1
  have hs : (a ^^^ b) >>> 1 = a >>> 1 ^^^ b >>> 1 := xor_shiftRight_distrib a b 1
  rcases Nat.mod_two_eq_zero_or_one a with ha | ha <;>
    rcases Nat.mod_two_eq_zero_or_one b with hb | hb <;>
      simp [hx, ha, hb, hs, Nat.xor_assoc, Nat.xor_comm, xor_left_comm,
        Nat.xor_self, Nat.xor_zero, Nat.zero_xor, Nat.xor_cancel_left]

theorem crcStep_iterate_xor (n a b : Nat) :
    crcStep^[n] (a ^^^ b) = crcStep^[n] a ^^^ crcStep^[n] b := by
  induction n generalizing a b with
  | zero => simp
  | succ k ih =>
    rw [Function.iterate_succ_apply, Function.iterate_succ_apply,
      Function.iterate_succ_apply, crcStep_xor, ih]

theorem crcStep_shiftLeft (h k : Nat) : crcStep (h <<< (k + 1)) = h <<< k := by
  unfold crcStep
  have heven : h <<< (k + 1) &&& 1 = 0 := by
    rw [Nat.and_one_is_mod, Nat.shiftLeft_eq, pow_succ, ← mul_assoc]
    exact Nat.mul_mod_left _ 2
  have hshift : h <<< (k + 1) >>> 1 = h <<< k := by
    rw [Nat.shiftLeft_eq, Nat.shiftLeft_eq, Nat.shiftRight_one, pow_succ,
      ← mul_assoc, Nat.mul_div_cancel _ (by norm_num)]
  simp [heven, hshift]

theorem crcStep_iterate_shiftLeft (k h : Nat) : crcStep^[k] (h <<< k) = h := by
  induction k generalizing h with
  | zero => simp
  | succ n ih => rw [Function.iterate_succ_apply, crcStep_shiftLeft, ih]

theorem xor_split_eight (x : Nat) : x % 2 ^ 8 ^^^ (x >>> 8) <<< 8 = x := by
  apply Nat.eq_of_testBit_eq
  intro i
  simp only [Nat.testBit_xor, Nat.testBit_mod_two_pow, Nat.testBit_shiftLeft,
    Nat.testBit_shiftRight]
  by_cases h : i < 8
  · have h2 : ¬(i ≥ 8) := by omega
    simp [h, h2]
  · have h8 : i ≥ 8 := by omega
    have h3 : 8 + (i - 8) = i := by omega
    simp [h, h8, h3]

theorem crcStep_eight_eq (x : Nat) :
    crcStep^[8] x = CRC_TABLE (x &&& 0xFF) ^^^ x >>> 8 := by
  conv_lhs => rw [← xor_split_eight x]
  rw [crcStep_iterate_xor, crcStep_iterate_shiftLeft]
  simp only [CRC_TABLE, and_255_eq_mod]

theorem updateCrc_eq (crc b : Nat) (hb : b < 256) :
    updateCrc crc b = crcStep^[8] (crc ^^^ b) := by
  unfold updateCrc
  rw [crcStep_eight_eq]
  congr 1
  rw [xor_shiftRight_distrib]
  have hb8 : b >>> 8 = 0 := by
    rw [Nat.shiftRight_eq_div_pow]
    have h2 : (2 : Nat) ^ 8 = 256 := by norm_num
    exact Nat.div_eq_of_lt (by omega)
  rw [hb8, Nat.xor_zero]

theorem crcStep_eq_refBitStep : crcStep = refBitStep := by
  funext c
  unfold crcStep refBitStep
  rw [Nat.and_one_is_mod, Nat.shiftRight_one]

theorem crcStep_lt {c : Nat} (h : c < 2 ^ 32) : crcStep c < 2 ^ 32 := by
  unfold crcStep
  have h1 : c >>> 1 < 2 ^ 32 := by
    rw [Nat.shiftRight_one]; omega
  split
  · exact Nat.xor_lt_two_pow (by norm_num) h1
  · exact h1

theorem crcStep_iterate_lt (n : Nat) {c : Nat} (h : c < 2 ^ 32) :
    crcStep^[n] c < 2 ^ 32 := by
  induction n generalizing c with
  | zero => simpa
  | succ k ih => rw [Function.iterate_succ_apply]; exact ih (crcStep_lt h)

theorem CRC_TABLE_lt {i : Nat} (h : i < 2 ^ 32) : CRC_TABLE i < 2 ^ 32 :=
  crcStep_iterate_lt 8 h

theorem updateCrc_lt {c : Nat} (b : Nat) (h : c < 2 ^ 32) : updateCrc c b < 2 ^ 32 := by
  unfold updateCrc
  have hT : CRC_TABLE ((c ^^^ b) &&& 0xFF) < 2 ^ 32 := by
    have := and_255_lt_256 (c ^^^ b)
    exact CRC_TABLE_lt (by norm_num; omega)
  have hs : c >>> 8 < 2 ^ 32 := by
    rw [Nat.shiftRight_eq_div_pow]
    exact lt_of_le_of_lt (Nat.div_le_self _ _) h
  exact Nat.xor_lt_two_pow hT hs

theorem foldl_updateCrc_lt (l : List Nat) {c : Nat} (h : c < 2 ^ 32) :
    l.foldl updateCrc c < 2 ^ 32 := by
  induction l generalizing c with
  | nil => simpa
  | cons x t ih => exact ih (updateCrc_lt x h)

theorem tableHi_eq :
    (List.range 256).map (fun i => CRC_TABLE i >>> 24) = tableHiList := by decide

theorem tableHi_nodup : tableHiList.Nodup := by decide

theorem CRC_TABLE_hi_inj : ∀ i < 256, ∀ j < 256,
    CRC_TABLE i >>> 24 = CRC_TABLE j >>> 24 → i = j := by
  intro i hi j hj hEq
  set l := (List.range 256).map fun k => CRC_TABLE k >>> 24 with hl
  have hnd : l.Nodup := by rw [hl, tableHi_eq]; exact tableHi_nodup
  have hil : i < l.length := by simp [hl]; omega
  have hjl : j < l.length := by simp [hl]; omega
  have hget : l[i] = l[j] := by
    simp only [hl, List.getElem_map, List.getElem_range]
    exact hEq
  exact (hnd.getElem_inj_iff).mp hget

theorem CRC_TABLE_inj : ∀ i < 256, ∀ j < 256, CRC_TABLE i = CRC_TABLE j → i = j :=
  fun i hi j hj h => CRC_TABLE_hi_inj i hi j hj (by rw [h])

theorem updateCrc_inj {c c' : Nat} (b : Nat) (hc : c < 2 ^ 32) (hc' : c' < 2 ^ 32)
    (h : updateCrc c b = updateCrc c' b) : c = c' := by
  unfold updateCrc at h
  have hshift : ∀ x : Nat, x < 2 ^ 32 → x >>> 8 >>> 24 = 0 := by
    intro x hx
    rw [Nat.shiftRight_eq_div_pow, Nat.shiftRight_eq_div_pow, Nat.div_div_eq_div_mul]
    have h2 : (2 : Nat) ^ 8 * 2 ^ 24 = 2 ^ 32 := by norm_num
    exact Nat.div_eq_of_lt (by omega)
  have h24 := congrArg (fun z => z >>> 24) h
  simp only at h24
  rw [xor_shiftRight_distrib, xor_shiftRight_distrib, hshift c hc, hshift c' hc',
    Nat.xor_zero, Nat.xor_zero] at h24
  have hii : (c ^^^ b) &&& 0xFF = (c' ^^^ b) &&& 0xFF :=
    CRC_TABLE_hi_inj _ (and_255_lt_256 _) _ (and_255_lt_256 _) h24
  rw [hii] at h
  have h8 : c >>> 8 = c' >>> 8 := xor_left_cancel h
  have hmod : c % 2 ^ 8 = c' % 2 ^ 8 := by
    have h2 := hii
    rw [and_255_eq_mod, and_255_eq_mod, xor_mod_two_pow_distrib,
      xor_mod_two_pow_distrib] at h2
    exact xor_right_cancel h2
  rw [Nat.shiftRight_eq_div_pow] at h8
  have h256 : (2 : Nat) ^ 8 = 256 := by norm_num
  rw [h256] at hmod h8
  omega

theorem updateCrc_ne (c : Nat) {b b' : Nat} (hb : b < 256) (hb' : b' < 256)
    (hne : b ≠ b') : updateCrc c b ≠ updateCrc c b' := by
  intro h
  unfold updateCrc at h
  have hidx : (c ^^^ b) &&& 0xFF ≠ (c ^^^ b') &&& 0xFF := by
    intro hEq
    rw [and_255_eq_mod, and_255_eq_mod, xor_mod_two_pow_distrib,
      xor_mod_two_pow_distrib] at hEq
    have h2 := xor_left_cancel hEq
    have h256 : (2 : Nat) ^ 8 = 256 := by norm_num
    rw [h256, Nat.mod_eq_of_lt hb, Nat.mod_eq_of_lt hb'] at h2
    exact hne h2
  have hT := xor_right_cancel h
  exact hidx (CRC_TABLE_inj _ (and_255_lt_256 _) _ (and_255_lt_256 _) hT)

theorem foldl_updateCrc_inj (l : List Nat) {c c' : Nat} (hc : c < 2 ^ 32)
    (hc' : c' < 2 ^ 32) (h : l.foldl updateCrc c = l.foldl updateCrc c') : c = c' := by
  induction l generalizing c c' with
  | nil => simpa using h
  | cons x t ih =>
    exact updateCrc_inj x hc hc' (ih (updateCrc_lt x hc) (updateCrc_lt x hc') h)

theorem compute_crc_flip_ne {x y : Nat} (pre suf : List Nat) (hx : x < 256)
    (hy : y < 256) (hne : x ≠ y) :
    ((pre ++ x :: suf).foldl updateCrc 0xFFFFFFFF) ^^^ 0xFFFFFFFF ≠
      ((pre ++ y :: suf).foldl updateCrc 0xFFFFFFFF) ^^^ 0xFFFFFFFF := by
  intro h
  have h1 := xor_right_cancel h
  rw [List.foldl_append, List.foldl_append] at h1
  simp only [List.foldl_cons] at h1
  have hs : pre.foldl updateCrc 0xFFFFFFFF < 2 ^ 32 := foldl_updateCrc_lt pre (by norm_num)
  have h2 := foldl_updateCrc_inj suf (updateCrc_lt x hs) (updateCrc_lt y hs) h1
  exact updateCrc_ne _ hx hy hne h2

theorem compute_crc_ne_of_point_diff (ty d ty' d' pre suf : List Nat) {x y : Nat}
    (hx : x < 256) (hy : y < 256) (hne : x ≠ y)
    (h1 : ty ++ d = pre ++ x :: suf) (h2 : ty' ++ d' = pre ++ y :: suf) :
    Chunk.compute_crc ty d ≠ Chunk.compute_crc ty' d' := by
  unfold Chunk.compute_crc
  rw [h1, h2]
  exact compute_crc_flip_ne pre suf hx hy hne

theorem compute_crc_lt (ty d : List Nat) : Chunk.compute_crc ty d < 2 ^ 32 := by
  unfold Chunk.compute_crc
  exact Nat.xor_lt_two_pow (foldl_updateCrc_lt _ (by norm_num)) (by norm_num)

theorem foldl_updateCrc_eq_ref (l : List Nat) (hl : ∀ b ∈ l, b < 256) :
    ∀ acc : Nat, l.foldl updateCrc acc =
      l.foldl (fun crc b => refBitStep^[8] (crc ^^^ b)) acc := by
  induction l with
  | nil => intro acc; rfl
  | cons x t ih =>
    intro acc
    simp only [List.foldl_cons]
    rw [updateCrc_eq acc x (hl x (by simp)), crcStep_eq_refBitStep]
    exact ih (fun b hb => hl b (by simp [hb])) _

/-! ## Serialization and parsing -/

theorem writeRange_at (k : Nat) (pre mid suf src : List Nat) (hpre : pre.length = k)
    (hlen : src.length = mid.length) :
    Chunk.writeRange (pre ++ (mid ++ suf)) k src = pre ++ (src ++ suf) := by
  subst hpre
  unfold Chunk.writeRange
  have htake : (pre ++ (mid ++ suf)).take pre.length = pre := List.take_left pre _
  have hdrop : (pre ++ (mid ++ suf)).drop (pre.length + src.length) = suf := by
    rw [hlen, show pre ++ (mid ++ suf) = (pre ++ mid) ++ suf from
      (List.append_assoc pre mid suf).symm, ← List.length_append, List.drop_left]
  rw [htake, hdrop, List.append_assoc]

theorem as_bytes_eq (c : Chunk) : c.as_bytes =
    u32ToBeBytes c.length ++ c.chunk_type.bytes ++ c.data ++ u32ToBeBytes c.crc := by
  set L := u32ToBeBytes c.length with hLdef
  set T := c.chunk_type.bytes with hTdef
  set C := u32ToBeBytes c.crc with hCdef
  have hL4 : L.length = 4 := by rw [hLdef]; rfl
  have hT4 : T.length = 4 := by rw [hTdef]; rfl
  have hC4 : C.length = 4 := by rw [hCdef]; rfl
  by_cases hD : c.data.isEmpty
  · have hDnil : c.data = [] := List.isEmpty_iff.mp hD
    simp only [Chunk.as_bytes, hD, if_true]
    have h0 : List.replicate c.size (0:Nat) =
        List.replicate 4 0 ++ (List.replicate 4 0 ++ (List.replicate 4 0 ++ [])) := by
      rw [show c.size = 4 + (4 + (4 + 0)) by simp [Chunk.size, hDnil]]
      rw [List.replicate_add, List.replicate_add, List.replicate_add]
      rfl
    rw [h0]
    have h1 := writeRange_at 0 [] (List.replicate 4 0)
      (List.replicate 4 0 ++ (List.replicate 4 0 ++ [])) L rfl (by simp [hLdef, u32ToBeBytes])
    simp only [List.nil_append] at h1
    rw [h1]
    have h2 := writeRange_at 4 L (List.replicate 4 0)
      (List.replicate 4 0 ++ []) T hL4 (by simp [hT4])
    rw [h2]
    have h3 := writeRange_at 8 (L ++ T) (List.replicate 4 0) [] C
      (by simp [hL4, hT4]) (by simp [hC4])
    rw [show L ++ (T ++ (List.replicate 4 (0:Nat) ++ [])) =
      (L ++ T) ++ (List.replicate 4 (0:Nat) ++ []) from (List.append_assoc _ _ _).symm]
    rw [h3]
    simp [hDnil]
  · have hD' : c.data.isEmpty = false := Bool.not_eq_true _ |>.mp hD
    simp only [Chunk.as_bytes, hD', Bool.false_eq_true, if_false]
    have h0 : List.replicate c.size (0:Nat) =
        List.replicate 4 0 ++ (List.replicate 4 0 ++
          (List.replicate c.data.length 0 ++ (List.replicate 4 0 ++ []))) := by
      rw [show c.size = 4 + (4 + (c.data.length + (4 + 0))) by simp [Chunk.size]; omega]
      rw [List.replicate_add, List.replicate_add, List.replicate_add, List.replicate_add]
      simp
    rw [h0]
    have h1 := writeRange_at 0 [] (List.replicate 4 0)
      (List.replicate 4 0 ++ (List.replicate c.data.length 0 ++ (List.replicate 4 0 ++ []))) L
      rfl (by simp [hLdef, u32ToBeBytes])
    simp only [List.nil_append] at h1
    rw [h1]
    have h2 := writeRange_at 4 L (List.replicate 4 0)
      (List.replicate c.data.length 0 ++ (List.replicate 4 0 ++ [])) T hL4 (by simp [hT4])
    rw [h2]
    have h3 := writeRange_at 8 (L ++ T) (List.replicate c.data.length 0)
      (List.replicate 4 0 ++ []) c.data (by simp [hL4, hT4]) (by simp)
    rw [show L ++ (T ++ (List.replicate c.data.length (0:Nat) ++ (List.replicate 4 0 ++ []))) =
      (L ++ T) ++ (List.replicate c.data.length (0:Nat) ++ (List.replicate 4 0 ++ [])) from
      (List.append_assoc _ _ _).symm]
    rw [h3]
    have h4 := writeRange_at (8 + c.data.length) ((L ++ T) ++ c.data) (List.replicate 4 0) [] C
      (by simp [hL4, hT4]; omega) (by simp [hC4])
    rw [show (L ++ T) ++ (c.data ++ (List.replicate 4 (0:Nat) ++ [])) =
      ((L ++ T) ++ c.data) ++ (List.replicate 4 (0:Nat) ++ []) from
      (List.append_assoc _ _ _).symm]
    rw [h4]
    simp

theorem u32_roundtrip (n : Nat) (h : n < 2 ^ 32) :
    u32FromBeBytes (n / 2 ^ 24 % 256) (n / 2 ^ 16 % 256) (n / 2 ^ 8 % 256) (n % 256) = n := by
  unfold u32FromBeBytes
  have h24 : (2 : Nat) ^ 24 = 16777216 := by norm_num
  have h16 : (2 : Nat) ^ 16 = 65536 := by norm_num
  have h8 : (2 : Nat) ^ 8 = 256 := by norm_num
  have h32 : (2 : Nat) ^ 32 = 4294967296 := by norm_num
  rw [h24, h16, h8, h32] at *
  omega

theorem try_from_segments (t : ChunkType) (D : List Nat) (lenv crcv : Nat)
    (hlen32 : lenv < 2 ^ 32) (hcrc32 : crcv < 2 ^ 32)
    (htype : ChunkType.try_from t.b0 t.b1 t.b2 t.b3 = .ok t) :
    Chunk.try_from (u32ToBeBytes lenv ++ (t.bytes ++ (D ++ u32ToBeBytes crcv))) =
      if lenv ≠ D.length then .error (.chunkLengthMismatch lenv D.length)
      else if crcv ≠ Chunk.compute_crc t.bytes D then
        .error (.chunkCrcMismatch crcv (Chunk.compute_crc t.bytes D))
      else .ok ⟨lenv, t, D, crcv⟩ := by
  have hclen : (u32ToBeBytes lenv ++ (t.bytes ++ (D ++ u32ToBeBytes crcv))).length =
      12 + D.length := by
    simp [u32ToBeBytes, ChunkType.bytes]
    omega
  have g0 : (u32ToBeBytes lenv ++ (t.bytes ++ (D ++ u32ToBeBytes crcv))).getD 0 0 =
      lenv / 2 ^ 24 % 256 := by
    rw [List.getD_append _ _ _ _ (by simp [u32ToBeBytes])]
    simp [u32ToBeBytes]
  have g1 : (u32ToBeBytes lenv ++ (t.bytes ++ (D ++ u32ToBeBytes crcv))).getD 1 0 =
      lenv / 2 ^ 16 % 256 := by
    rw [List.getD_append _ _ _ _ (by simp [u32ToBeBytes])]
    simp [u32ToBeBytes]
  have g2 : (u32ToBeBytes lenv ++ (t.bytes ++ (D ++ u32ToBeBytes crcv))).getD 2 0 =
      lenv / 2 ^ 8 % 256 := by
    rw [List.getD_append _ _ _ _ (by simp [u32ToBeBytes])]
    simp [u32ToBeBytes]
  have g3 : (u32ToBeBytes lenv ++ (t.bytes ++ (D ++ u32ToBeBytes crcv))).getD 3 0 =
      lenv % 256 := by
    rw [List.getD_append _ _ _ _ (by simp [u32ToBeBytes])]
    simp [u32ToBeBytes]
  have g4 : (u32ToBeBytes lenv ++ (t.bytes ++ (D ++ u32ToBeBytes crcv))).getD 4 0 =
      t.b0 := by
    rw [List.getD_append_right _ _ _ _ (by simp [u32ToBeBytes])]
    simp [u32ToBeBytes, ChunkType.bytes]
  have g5 : (u32ToBeBytes lenv ++ (t.bytes ++ (D ++ u32ToBeBytes crcv))).getD 5 0 =
      t.b1 := by
    rw [List.getD_append_right _ _ _ _ (by simp [u32ToBeBytes])]
    simp [u32ToBeBytes, ChunkType.bytes]
  have g6 : (u32ToBeBytes lenv ++ (t.bytes ++ (D ++ u32ToBeBytes crcv))).getD 6 0 =
      t.b2 := by
    rw [List.getD_append_right _ _ _ _ (by simp [u32ToBeBytes])]
    simp [u32ToBeBytes, ChunkType.bytes]
  have g7 : (u32ToBeBytes lenv ++ (t.bytes ++ (D ++ u32ToBeBytes crcv))).getD 7 0 =
      t.b3 := by
    rw [List.getD_append_right _ _ _ _ (by simp [u32ToBeBytes])]
    simp [u32ToBeBytes, ChunkType.bytes]
  have hsplit : u32ToBeBytes lenv ++ (t.bytes ++ (D ++ u32ToBeBytes crcv)) =
      (u32ToBeBytes lenv ++ t.bytes ++ D) ++ u32ToBeBytes crcv := by
    simp [List.append_assoc]
  have hplen : (u32ToBeBytes lenv ++ t.bytes ++ D).length = 8 + D.length := by
    simp [u32ToBeBytes, ChunkType.bytes]
    omega
  have gc : ∀ k, (u32ToBeBytes lenv ++
      (t.bytes ++ (D ++ u32ToBeBytes crcv))).getD (8 + D.length + k) 0 =
      (u32ToBeBytes crcv).getD k 0 := by
    intro k
    rw [hsplit, List.getD_append_right _ _ _ _ (by rw [hplen]; omega), hplen]
    congr 1
    omega
  have hdata : ((u32ToBeBytes lenv ++
      (t.bytes ++ (D ++ u32ToBeBytes crcv))).drop 8).take (12 + D.length - 12) = D := by
    rw [show u32ToBeBytes lenv ++ (t.bytes ++ (D ++ u32ToBeBytes crcv)) =
      (u32ToBeBytes lenv ++ t.bytes) ++ (D ++ u32ToBeBytes crcv) from by
        simp [List.append_assoc]]
    have h8 : (u32ToBeBytes lenv ++ t.bytes).length = 8 := by
      simp [u32ToBeBytes, ChunkType.bytes]
    rw [show (8 : Nat) = (u32ToBeBytes lenv ++ t.bytes).length from h8.symm,
      List.drop_left, show 12 + D.length - 12 = D.length from by omega]
    exact List.take_left D (u32ToBeBytes crcv)
  unfold Chunk.try_from
  simp only [hclen]
  rw [if_neg (by omega)]
  simp only [g4, g5, g6, g7, htype]
  have gd0 : (u32ToBeBytes lenv ++ (t.bytes ++ (D ++ u32ToBeBytes crcv))).getD
      (12 + D.length - 4) 0 = crcv / 2 ^ 24 % 256 := by
    rw [show 12 + D.length - 4 = 8 + D.length + 0 from by omega, gc 0]
    simp [u32ToBeBytes]
  have gd1 : (u32ToBeBytes lenv ++ (t.bytes ++ (D ++ u32ToBeBytes crcv))).getD
      (12 + D.length - 3) 0 = crcv / 2 ^ 16 % 256 := by
    rw [show 12 + D.length - 3 = 8 + D.length + 1 from by omega, gc 1]
    simp [u32ToBeBytes]
  have gd2 : (u32ToBeBytes lenv ++ (t.bytes ++ (D ++ u32ToBeBytes crcv))).getD
      (12 + D.length - 2) 0 = crcv / 2 ^ 8 % 256 := by
    rw [show 12 + D.length - 2 = 8 + D.length + 2 from by omega, gc 2]
    simp [u32ToBeBytes]
  have gd3 : (u32ToBeBytes lenv ++ (t.bytes ++ (D ++ u32ToBeBytes crcv))).getD
      (12 + D.length - 1) 0 = crcv % 256 := by
    rw [show 12 + D.length - 1 = 8 + D.length + 3 from by omega, gc 3]
    simp [u32ToBeBytes]
  simp only [gd0, gd1, gd2, gd3, g0, g1, g2, g3, hdata]
  rw [u32_roundtrip lenv hlen32, u32_roundtrip crcv hcrc32]

theorem try_from_as_bytes {c : Chunk} (h : c.Valid) : Chunk.try_from c.as_bytes = .ok c := by
  obtain ⟨hlen, hlt, hq0, hq1, hq2, hq3, hct, hdb, hcrc⟩ := h
  have hb : c.as_bytes = u32ToBeBytes c.length ++
      (c.chunk_type.bytes ++ (c.data ++ u32ToBeBytes c.crc)) := by
    rw [as_bytes_eq, List.append_assoc, List.append_assoc]
  have hcrclt : c.crc < 2 ^ 32 := by
    rw [hcrc]
    exact compute_crc_lt _ _
  rw [hb, try_from_segments c.chunk_type c.data c.length c.crc (by omega) hcrclt hct,
    if_neg (by omega), if_neg (not_ne_iff.mpr hcrc)]

theorem xor_two_pow_ne (a j : Nat) : a ^^^ 2 ^ j ≠ a := by
  intro h
  have h0 : a ^^^ 2 ^ j = a ^^^ 0 := by rw [Nat.xor_zero]; exact h
  have h1 := xor_left_cancel h0
  exact (Nat.two_pow_pos j).ne' h1

theorem xor_two_pow_lt {a j : Nat} (ha : a < 256) (hj : j < 8) : a ^^^ 2 ^ j < 256 := by
  have h8 : (256 : Nat) = 2 ^ 8 := by norm_num
  rw [h8] at ha ⊢
  exact Nat.xor_lt_two_pow ha (Nat.pow_lt_pow_right (by norm_num) hj)

theorem list_point_decomp (l : List Nat) (q : Nat) (h : q < l.length) :
    l = l.take q ++ l.getD q 0 :: l.drop (q + 1) := by
  rw [List.getD_eq_getElem _ _ h, ← List.drop_eq_getElem_cons h, List.take_append_drop]

theorem list_set_decomp (l : List Nat) (q v : Nat) (h : q < l.length) :
    l.set q v = l.take q ++ v :: l.drop (q + 1) :=
  List.set_eq_take_cons_drop v h

theorem flipBit_data_crcMismatch (c : Chunk) (hv : c.Valid) (q j : Nat)
    (hq : q < c.data.length) (hj : j < 8) :
    Chunk.try_from (flipBit c.as_bytes (8 + q) j) =
      .error (.chunkCrcMismatch c.crc
        (Chunk.compute_crc c.chunk_type.bytes
          (c.data.set q (c.data.getD q 0 ^^^ 2 ^ j)))) := by
  obtain ⟨hlen, hlt, hp0, hp1, hp2, hp3, hct, hdb, hcrc⟩ := hv
  have hb : c.as_bytes = u32ToBeBytes c.length ++
      (c.chunk_type.bytes ++ (c.data ++ u32ToBeBytes c.crc)) := by
    rw [as_bytes_eq, List.append_assoc, List.append_assoc]
  have hget : (u32ToBeBytes c.length ++ (c.chunk_type.bytes ++
      (c.data ++ u32ToBeBytes c.crc))).getD (8 + q) 0 = c.data.getD q 0 := by
    rw [List.getD_append_right _ _ _ _ (by simp [u32ToBeBytes]; omega)]
    rw [List.getD_append_right _ _ _ _ (by simp [ChunkType.bytes, u32ToBeBytes]; omega)]
    rw [List.getD_append _ _ _ _ (by simp [ChunkType.bytes, u32ToBeBytes]; omega)]
    congr 1
    simp [u32ToBeBytes, ChunkType.bytes]
    omega
  have hflip : flipBit c.as_bytes (8 + q) j =
      u32ToBeBytes c.length ++ (c.chunk_type.bytes ++
        ((c.data.set q (c.data.getD q 0 ^^^ 2 ^ j)) ++ u32ToBeBytes c.crc)) := by
    unfold flipBit
    rw [hb, Nat.one_shiftLeft, hget]
    rw [List.set_append, if_neg (by simp [u32ToBeBytes]; omega)]
    rw [List.set_append, if_neg (by simp [u32ToBeBytes, ChunkType.bytes]; omega)]
    rw [List.set_append, if_pos (by simp [u32ToBeBytes, ChunkType.bytes]; omega)]
    rw [show 8 + q - (u32ToBeBytes c.length).length - c.chunk_type.bytes.length = q from by
      simp [u32ToBeBytes, ChunkType.bytes]; omega]
  have hcrclt : c.crc < 2 ^ 32 := by
    rw [hcrc]
    exact compute_crc_lt _ _
  have hx256 : c.data.getD q 0 < 256 := by
    have hmem : c.data.getD q 0 ∈ c.data := by
      rw [List.getD_eq_getElem _ _ hq]
      exact List.getElem_mem hq
    exact hdb _ hmem
  have hne : c.crc ≠ Chunk.compute_crc c.chunk_type.bytes
      (c.data.set q (c.data.getD q 0 ^^^ 2 ^ j)) := by
    rw [hcrc]
    refine compute_crc_ne_of_point_diff _ _ _ _
      (c.chunk_type.bytes ++ c.data.take q) (c.data.drop (q + 1))
      hx256 (xor_two_pow_lt hx256 hj) (Ne.symm (xor_two_pow_ne _ j)) ?_ ?_
    · conv_lhs => rw [list_point_decomp c.data q hq]
      rw [← List.append_assoc]
    · rw [list_set_decomp _ _ _ hq, ← List.append_assoc]
  rw [hflip, try_from_segments c.chunk_type _ c.length c.crc (by omega) hcrclt hct]
  rw [if_neg (by simp only [List.length_set]; omega)]
  rw [if_pos hne]

theorem try_from_checks {b0 b1 b2 b3 : Nat} {t : ChunkType}
    (h : ChunkType.try_from b0 b1 b2 b3 = .ok t) :
    is_ascii_uppercase (b0 &&& 0xDF) = true ∧ is_ascii_uppercase (b1 &&& 0xDF) = true ∧
    is_ascii_uppercase (b2 &&& 0xDF) = true ∧ is_ascii_uppercase (b3 &&& 0xDF) = true ∧
    t = ⟨b0, b1, b2, b3⟩ := by
  unfold ChunkType.try_from at h
  split_ifs at h with h0 h1 h2 h3
  all_goals simp_all

theorem try_from_of_checks {b0 b1 b2 b3 : Nat}
    (h0 : is_ascii_uppercase (b0 &&& 0xDF) = true)
    (h1 : is_ascii_uppercase (b1 &&& 0xDF) = true)
    (h2 : is_ascii_uppercase (b2 &&& 0xDF) = true)
    (h3 : is_ascii_uppercase (b3 &&& 0xDF) = true) :
    ChunkType.try_from b0 b1 b2 b3 = .ok ⟨b0, b1, b2, b3⟩ := by
  unfold ChunkType.try_from
  simp [h0, h1, h2, h3]

theorem flipBit_type_crcMismatch (c : Chunk) (hv : c.Valid) (q j : Nat)
    (hq : q < 4) (hj : j < 8)
    (hok : is_ascii_uppercase ((c.chunk_type.bytes.getD q 0 ^^^ 2 ^ j) &&& 0xDF) = true) :
    ∃ comp, Chunk.try_from (flipBit c.as_bytes (4 + q) j) =
      .error (.chunkCrcMismatch c.crc comp) := by
  obtain ⟨hlen, hlt, hp0, hp1, hp2, hp3, hct, hdb, hcrc⟩ := hv
  obtain ⟨hk0, hk1, hk2, hk3, -⟩ := try_from_checks hct
  have hb : c.as_bytes = u32ToBeBytes c.length ++
      (c.chunk_type.bytes ++ (c.data ++ u32ToBeBytes c.crc)) := by
    rw [as_bytes_eq, List.append_assoc, List.append_assoc]
  have hcrclt : c.crc < 2 ^ 32 := by
    rw [hcrc]
    exact compute_crc_lt _ _
  have hget : (u32ToBeBytes c.length ++ (c.chunk_type.bytes ++
      (c.data ++ u32ToBeBytes c.crc))).getD (4 + q) 0 = c.chunk_type.bytes.getD q 0 := by
    rw [List.getD_append_right _ _ _ _ (by simp [u32ToBeBytes])]
    rw [List.getD_append _ _ _ _ (by simp [ChunkType.bytes, u32ToBeBytes]; omega)]
    congr 1
    simp [u32ToBeBytes]
  have hflip : flipBit c.as_bytes (4 + q) j =
      u32ToBeBytes c.length ++
        ((c.chunk_type.bytes.set q (c.chunk_type.bytes.getD q 0 ^^^ 2 ^ j)) ++
          (c.data ++ u32ToBeBytes c.crc)) := by
    unfold flipBit
    rw [hb, Nat.one_shiftLeft, hget]
    rw [List.set_append, if_neg (by simp [u32ToBeBytes])]
    rw [List.set_append, if_pos (by simp [u32ToBeBytes, ChunkType.bytes]; omega)]
    rw [show 4 + q - (u32ToBeBytes c.length).length = q from by simp [u32ToBeBytes]]
  interval_cases q
  · simp only [ChunkType.bytes, List.getD_cons_zero, List.set_cons_zero] at hflip hok
    have hflip2 : flipBit c.as_bytes (4 + 0) j = u32ToBeBytes c.length ++
        ((⟨c.chunk_type.b0 ^^^ 2 ^ j, c.chunk_type.b1, c.chunk_type.b2,
          c.chunk_type.b3⟩ : ChunkType).bytes ++ (c.data ++ u32ToBeBytes c.crc)) := hflip
    have htype' := try_from_of_checks hok hk1 hk2 hk3
    refine ⟨Chunk.compute_crc (⟨c.chunk_type.b0 ^^^ 2 ^ j, c.chunk_type.b1, c.chunk_type.b2, c.chunk_type.b3⟩ : ChunkType).bytes c.data, ?_⟩
    rw [hflip2, try_from_segments _ c.data c.length c.crc (by omega) hcrclt htype']
    rw [if_neg (by omega)]
    rw [if_pos (by
      rw [hcrc]
      exact compute_crc_ne_of_point_diff _ _ _ _ []
        ([c.chunk_type.b1, c.chunk_type.b2, c.chunk_type.b3] ++ c.data)
        hp0 (xor_two_pow_lt hp0 hj) (Ne.symm (xor_two_pow_ne _ _)) rfl rfl)]
  · simp only [ChunkType.bytes, List.getD_cons_succ, List.getD_cons_zero,
      List.set_cons_succ, List.set_cons_zero] at hflip hok
    have hflip2 : flipBit c.as_bytes (4 + 1) j = u32ToBeBytes c.length ++
        ((⟨c.chunk_type.b0, c.chunk_type.b1 ^^^ 2 ^ j, c.chunk_type.b2,
          c.chunk_type.b3⟩ : ChunkType).bytes ++ (c.data ++ u32ToBeBytes c.crc)) := hflip
    have htype' := try_from_of_checks hk0 hok hk2 hk3
    refine ⟨Chunk.compute_crc (⟨c.chunk_type.b0, c.chunk_type.b1 ^^^ 2 ^ j, c.chunk_type.b2, c.chunk_type.b3⟩ : ChunkType).bytes c.data, ?_⟩
    rw [hflip2, try_from_segments _ c.data c.length c.crc (by omega) hcrclt htype']
    rw [if_neg (by omega)]
    rw [if_pos (by
      rw [hcrc]
      exact compute_crc_ne_of_point_diff _ _ _ _ [c.chunk_type.b0]
        ([c.chunk_type.b2, c.chunk_type.b3] ++ c.data)
        hp1 (xor_two_pow_lt hp1 hj) (Ne.symm (xor_two_pow_ne _ _)) rfl rfl)]
  · simp only [ChunkType.bytes, List.getD_cons_succ, List.getD_cons_zero,
      List.set_cons_succ, List.set_cons_zero] at hflip hok
    have hflip2 : flipBit c.as_bytes (4 + 2) j = u32ToBeBytes c.length ++
        ((⟨c.chunk_type.b0, c.chunk_type.b1, c.chunk_type.b2 ^^^ 2 ^ j,
          c.chunk_type.b3⟩ : ChunkType).bytes ++ (c.data ++ u32ToBeBytes c.crc)) := hflip
    have htype' := try_from_of_checks hk0 hk1 hok hk3
    refine ⟨Chunk.compute_crc (⟨c.chunk_type.b0, c.chunk_type.b1, c.chunk_type.b2 ^^^ 2 ^ j, c.chunk_type.b3⟩ : ChunkType).bytes c.data, ?_⟩
    rw [hflip2, try_from_segments _ c.data c.length c.crc (by omega) hcrclt htype']
    rw [if_neg (by omega)]
    rw [if_pos (by
      rw [hcrc]
      exact compute_crc_ne_of_point_diff _ _ _ _ [c.chunk_type.b0, c.chunk_type.b1]
        ([c.chunk_type.b3] ++ c.data)
        hp2 (xor_two_pow_lt hp2 hj) (Ne.symm (xor_two_pow_ne _ _)) rfl rfl)]
  · simp only [ChunkType.bytes, List.getD_cons_succ, List.getD_cons_zero,
      List.set_cons_succ, List.set_cons_zero] at hflip hok
    have hflip2 : flipBit c.as_bytes (4 + 3) j = u32ToBeBytes c.length ++
        ((⟨c.chunk_type.b0, c.chunk_type.b1, c.chunk_type.b2,
          c.chunk_type.b3 ^^^ 2 ^ j⟩ : ChunkType).bytes ++ (c.data ++ u32ToBeBytes c.crc)) := hflip
    have htype' := try_from_of_checks hk0 hk1 hk2 hok
    refine ⟨Chunk.compute_crc (⟨c.chunk_type.b0, c.chunk_type.b1, c.chunk_type.b2, c.chunk_type.b3 ^^^ 2 ^ j⟩ : ChunkType).bytes c.data, ?_⟩
    rw [hflip2, try_from_segments _ c.data c.length c.crc (by omega) hcrclt htype']
    rw [if_neg (by omega)]
    rw [if_pos (by
      rw [hcrc]
      exact compute_crc_ne_of_point_diff _ _ _ _
        [c.chunk_type.b0, c.chunk_type.b1, c.chunk_type.b2] c.data
        hp3 (xor_two_pow_lt hp3 hj) (Ne.symm (xor_two_pow_ne _ _)) rfl rfl)]

theorem getD_parsed_head (lenv : Nat) (t : ChunkType) (rest : List Nat) :
    ((u32ToBeBytes lenv ++ (t.bytes ++ rest)).getD 0 0 = lenv / 2 ^ 24 % 256) ∧
    ((u32ToBeBytes lenv ++ (t.bytes ++ rest)).getD 1 0 = lenv / 2 ^ 16 % 256) ∧
    ((u32ToBeBytes lenv ++ (t.bytes ++ rest)).getD 2 0 = lenv / 2 ^ 8 % 256) ∧
    ((u32ToBeBytes lenv ++ (t.bytes ++ rest)).getD 3 0 = lenv % 256) ∧
    ((u32ToBeBytes lenv ++ (t.bytes ++ rest)).getD 4 0 = t.b0) ∧
    ((u32ToBeBytes lenv ++ (t.bytes ++ rest)).getD 5 0 = t.b1) ∧
    ((u32ToBeBytes lenv ++ (t.bytes ++ rest)).getD 6 0 = t.b2) ∧
    ((u32ToBeBytes lenv ++ (t.bytes ++ rest)).getD 7 0 = t.b3) := by
  refine ⟨?_, ?_, ?_, ?_, ?_, ?_, ?_, ?_⟩
  · rw [List.getD_append _ _ _ _ (by simp [u32ToBeBytes])]
    simp [u32ToBeBytes]
  · rw [List.getD_append _ _ _ _ (by simp [u32ToBeBytes])]
    simp [u32ToBeBytes]
  · rw [List.getD_append _ _ _ _ (by simp [u32ToBeBytes])]
    simp [u32ToBeBytes]
  · rw [List.getD_append _ _ _ _ (by simp [u32ToBeBytes])]
    simp [u32ToBeBytes]
  · rw [List.getD_append_right _ _ _ _ (by simp [u32ToBeBytes])]
    simp [u32ToBeBytes, ChunkType.bytes]
  · rw [List.getD_append_right _ _ _ _ (by simp [u32ToBeBytes])]
    simp [u32ToBeBytes, ChunkType.bytes]
  · rw [List.getD_append_right _ _ _ _ (by simp [u32ToBeBytes])]
    simp [u32ToBeBytes, ChunkType.bytes]
  · rw [List.getD_append_right _ _ _ _ (by simp [u32ToBeBytes])]
    simp [u32ToBeBytes, ChunkType.bytes]

theorem try_from_append_extra {c : Chunk} (hv : c.Valid) (extra : List Nat)
    (hx : extra ≠ []) :
    Chunk.try_from (c.as_bytes ++ extra) =
      .error (.chunkLengthMismatch c.length (c.data.length + extra.length)) := by
  obtain ⟨hlen, hlt, hp0, hp1, hp2, hp3, hct, hdb, hcrc⟩ := hv
  have hb2 : c.as_bytes ++ extra = u32ToBeBytes c.length ++
      (c.chunk_type.bytes ++ (c.data ++ (u32ToBeBytes c.crc ++ extra))) := by
    rw [as_bytes_eq]
    simp [List.append_assoc]
  obtain ⟨g0, g1, g2, g3, g4, g5, g6, g7⟩ :=
    getD_parsed_head c.length c.chunk_type (c.data ++ (u32ToBeBytes c.crc ++ extra))
  have he : 0 < extra.length := List.length_pos.mpr hx
  have hclen : (u32ToBeBytes c.length ++ (c.chunk_type.bytes ++
      (c.data ++ (u32ToBeBytes c.crc ++ extra)))).length =
      12 + c.data.length + extra.length := by
    simp [u32ToBeBytes, ChunkType.bytes]
    omega
  have hdlen : ((List.drop 8 (u32ToBeBytes c.length ++ (c.chunk_type.bytes ++
      (c.data ++ (u32ToBeBytes c.crc ++ extra))))).take
      (12 + c.data.length + extra.length - 12)).length =
      c.data.length + extra.length := by
    simp [List.length_take, List.length_drop, u32ToBeBytes, ChunkType.bytes]
    omega
  rw [hb2]
  unfold Chunk.try_from
  simp only [hclen]
  rw [if_neg (by omega)]
  simp only [g4, g5, g6, g7, hct, g0, g1, g2, g3]
  rw [u32_roundtrip c.length (by omega)]
  rw [if_pos (by rw [hdlen]; omega)]
  rw [hdlen]

theorem try_from_cases (b : List Nat) :
    (b.length < 12 → Chunk.try_from b = .error (.chunkTooShort b.length)) ∧
    (12 ≤ b.length →
      (∀ e, ChunkType.try_from (b.getD 4 0) (b.getD 5 0) (b.getD 6 0) (b.getD 7 0) =
          .error e → Chunk.try_from b = .error e) ∧
      (∀ t, ChunkType.try_from (b.getD 4 0) (b.getD 5 0) (b.getD 6 0) (b.getD 7 0) =
          .ok t →
        (u32FromBeBytes (b.getD 0 0) (b.getD 1 0) (b.getD 2 0) (b.getD 3 0) ≠
            b.length - 12 →
          Chunk.try_from b = .error (.chunkLengthMismatch
            (u32FromBeBytes (b.getD 0 0) (b.getD 1 0) (b.getD 2 0) (b.getD 3 0))
            (b.length - 12))) ∧
        (u32FromBeBytes (b.getD 0 0) (b.getD 1 0) (b.getD 2 0) (b.getD 3 0) =
            b.length - 12 →
          (u32FromBeBytes (b.getD (b.length - 4) 0) (b.getD (b.length - 3) 0)
              (b.getD (b.length - 2) 0) (b.getD (b.length - 1) 0) ≠
              Chunk.compute_crc t.bytes ((b.drop 8).take (b.length - 12)) →
            Chunk.try_from b = .error (.chunkCrcMismatch
              (u32FromBeBytes (b.getD (b.length - 4) 0) (b.getD (b.length - 3) 0)
                (b.getD (b.length - 2) 0) (b.getD (b.length - 1) 0))
              (Chunk.compute_crc t.bytes ((b.drop 8).take (b.length - 12))))) ∧
          (u32FromBeBytes (b.getD (b.length - 4) 0) (b.getD (b.length - 3) 0)
              (b.getD (b.length - 2) 0) (b.getD (b.length - 1) 0) =
              Chunk.compute_crc t.bytes ((b.drop 8).take (b.length - 12)) →
            Chunk.try_from b = .ok
              ⟨u32FromBeBytes (b.getD 0 0) (b.getD 1 0) (b.getD 2 0) (b.getD 3 0), t,
                (b.drop 8).take (b.length - 12),
                u32FromBeBytes (b.getD (b.length - 4) 0) (b.getD (b.length - 3) 0)
                  (b.getD (b.length - 2) 0) (b.getD (b.length - 1) 0)⟩)))) := by
  have hdl : ((b.drop 8).take (b.length - 12)).length = b.length - 12 ∨ b.length < 12 := by
    by_cases h : b.length < 12
    · exact Or.inr h
    · refine Or.inl ?_
      simp [List.length_take, List.length_drop]
      omega
  constructor
  · intro h
    unfold Chunk.try_from
    rw [if_pos h]
  · intro h12
    have hdl2 : ((b.drop 8).take (b.length - 12)).length = b.length - 12 := by
      rcases hdl with h | h
      · exact h
      · omega
    constructor
    · intro e he
      unfold Chunk.try_from
      rw [if_neg (by omega)]
      simp only [he]
    · intro t ht
      constructor
      · intro hne
        unfold Chunk.try_from
        rw [if_neg (by omega)]
        simp only [ht]
        rw [if_pos (by rw [hdl2]; exact hne), hdl2]
      · intro heq
        constructor
        · intro hcne
          unfold Chunk.try_from
          rw [if_neg (by omega)]
          simp only [ht]
          rw [if_neg (by rw [hdl2]; exact fun hcontra => hcontra heq)]
          rw [if_pos hcne]
        · intro hceq
          unfold Chunk.try_from
          rw [if_neg (by omega)]
          simp only [ht]
          rw [if_neg (by rw [hdl2]; exact fun hcontra => hcontra heq)]
          rw [if_neg (fun hcontra => hcontra hceq)]

/-! ## Remaining characterizations -/

theorem typeByteCheck_iff : ∀ b < 256,
    (is_ascii_uppercase (b &&& 0xDF) = true ↔ isAsciiLetter b) := by decide

theorem bit5_clear_iff (b : Nat) :
    (((b >>> 5) &&& 1) == 0) = true ↔ b.testBit 5 = false := by
  rw [Nat.and_one_is_mod, Nat.shiftRight_eq_div_pow, Nat.testBit_to_div_mod]
  rcases Nat.mod_two_eq_zero_or_one (b / 2 ^ 5) with h | h <;> simp [h]

theorem bit5_set_iff (b : Nat) :
    (((b >>> 5) &&& 1) == 1) = true ↔ b.testBit 5 = true := by
  rw [Nat.and_one_is_mod, Nat.shiftRight_eq_div_pow, Nat.testBit_to_div_mod]
  rcases Nat.mod_two_eq_zero_or_one (b / 2 ^ 5) with h | h <;> simp [h]

theorem new_ok_inv {ct : ChunkType} {data : List Nat} {c : Chunk}
    (h : Chunk.new ct data = .ok c) :
    c = ⟨data.length, ct, data, Chunk.compute_crc ct.bytes data⟩ ∧
      data.length ≤ 2 ^ 31 - 1 := by
  unfold Chunk.new at h
  split_ifs at h with hle
  rw [Except.ok.injEq] at h
  exact ⟨h.symm, by omega⟩

theorem new_error_inv {ct : ChunkType} {data : List Nat} {e : PngError}
    (h : Chunk.new ct data = .error e) :
    e = .dataTooLarge data.length ∧ 2 ^ 31 - 1 < data.length := by
  unfold Chunk.new at h
  split_ifs at h with hle
  rw [Except.error.injEq] at h
  exact ⟨h.symm, by omega⟩

theorem try_from_ok_length {b : List Nat} {c : Chunk}
    (h : Chunk.try_from b = .ok c) : c.length = c.data.length := by
  by_cases h12 : b.length < 12
  · rw [(try_from_cases b).1 h12] at h
    exact absurd h (by simp)
  · have h12' : 12 ≤ b.length := by omega
    rcases htc : ChunkType.try_from (b.getD 4 0) (b.getD 5 0) (b.getD 6 0)
        (b.getD 7 0) with e | t
    · rw [((try_from_cases b).2 h12').1 e htc] at h
      exact absurd h (by simp)
    · obtain ⟨hA, hB⟩ := ((try_from_cases b).2 h12').2 t htc
      by_cases hlen : u32FromBeBytes (b.getD 0 0) (b.getD 1 0) (b.getD 2 0)
          (b.getD 3 0) = b.length - 12
      · obtain ⟨hC, hD⟩ := hB hlen
        by_cases hcrc : u32FromBeBytes (b.getD (b.length - 4) 0)
            (b.getD (b.length - 3) 0) (b.getD (b.length - 2) 0)
            (b.getD (b.length - 1) 0) =
            Chunk.compute_crc t.bytes ((b.drop 8).take (b.length - 12))
        · rw [hD hcrc] at h
          rw [Except.ok.injEq] at h
          rw [← h]
          simp only [List.length_take, List.length_drop]
          omega
        · rw [hC hcrc] at h
          exact absurd h (by simp)
      · rw [hA hlen] at h
        exact absurd h (by simp)

theorem bigChunk_valid : bigChunk.Valid := by
  have hty : bigChunk.chunk_type = (⟨82, 117, 83, 116⟩ : ChunkType) := rfl
  have hdata : bigChunk.data = List.replicate (2 ^ 31) 0 := rfl
  refine ⟨?_, ?_, by rw [hty]; decide, by rw [hty]; decide, by rw [hty]; decide,
    by rw [hty]; decide, by rw [hty]; decide, ?_, ?_⟩
  · show 2 ^ 31 = (List.replicate (2 ^ 31) 0).length
    rw [List.length_replicate]
  · show (List.replicate (2 ^ 31) 0).length < 2 ^ 32
    rw [List.length_replicate]
    norm_num
  · intro b hb
    rw [hdata] at hb
    rw [List.eq_of_mem_replicate hb]
    norm_num
  · show Chunk.compute_crc [82, 117, 83, 116] (List.replicate (2 ^ 31) 0) =
      Chunk.compute_crc bigChunk.chunk_type.bytes bigChunk.data
    rw [hty]
    rfl

theorem try_from_error_shape {b0 b1 b2 b3 : Nat} {e : PngError}
    (h : ChunkType.try_from b0 b1 b2 b3 = .error e) :
    ∃ bb, bb ∈ [b0, b1, b2, b3] ∧ is_ascii_uppercase (bb &&& 0xDF) = false ∧
      e = .invalidTypeByte bb := by
  unfold ChunkType.try_from at h
  split_ifs at h with h0 h1 h2 h3 <;>
    (rw [Except.error.injEq] at h
     exact ⟨_, by simp, by simp_all, h.symm⟩)

/-! ## The claims -/

/-- C1: for every Chunk satisfying the invariants (`length` caches
`data.len()`, `crc` is the CRC-32 of type bytes followed by data, and the
fields are genuine `u8`/`u32` values), parsing the serialized bytes succeeds
and returns the same chunk: `Chunk::try_from` composed with
`Chunk::as_bytes` is the identity on valid chunks. -/
theorem claim_C1_roundtrip :
    ∀ c : Chunk, c.Valid → Chunk.try_from c.as_bytes = .ok c :=
  fun _ h => try_from_as_bytes h

theorem claim_C1_witness :
    sampleChunk.Valid ∧ Chunk.try_from sampleChunk.as_bytes = .ok sampleChunk :=
  ⟨by decide, claim_C1_roundtrip sampleChunk (by decide)⟩

/-- C2: the table-driven CRC of `Chunk::compute_crc` (used both by
construction and by parsing) equals the reference bitwise reflected CRC-32
(polynomial 0xEDB88320, init 0xFFFFFFFF, final XOR 0xFFFFFFFF) of the type
bytes concatenated with the data; in particular the 256-entry table plus the
per-byte update rule is equivalent to the bitwise definition. -/
theorem claim_C2_crc_reference :
    (∀ (chunk_ty data : List Nat), (∀ b ∈ chunk_ty ++ data, b < 256) →
      Chunk.compute_crc chunk_ty data = referenceCrc32 (chunk_ty ++ data)) ∧
    (∀ (ct : ChunkType) (data : List Nat) (c : Chunk), Chunk.new ct data = .ok c →
      (∀ b ∈ ct.bytes ++ data, b < 256) →
      c.crc = referenceCrc32 (ct.bytes ++ data)) := by
  have hmain : ∀ (chunk_ty data : List Nat), (∀ b ∈ chunk_ty ++ data, b < 256) →
      Chunk.compute_crc chunk_ty data = referenceCrc32 (chunk_ty ++ data) := by
    intro ty d h
    unfold Chunk.compute_crc referenceCrc32
    rw [foldl_updateCrc_eq_ref _ h]
  refine ⟨hmain, ?_⟩
  intro ct data c h hb
  obtain ⟨hc, -⟩ := new_ok_inv h
  subst hc
  exact hmain _ _ hb

theorem claim_C2_witness :
    Chunk.compute_crc [82, 117, 83, 116] [42] =
      referenceCrc32 ([82, 117, 83, 116] ++ [42]) :=
  claim_C2_crc_reference.1 [82, 117, 83, 116] [42] (by decide)

/-- C3: chunk parsing behaves exactly as specified: it fails with the
too-short error when the buffer has fewer than 12 bytes; otherwise it reads
bytes 0-3 as a big-endian length, propagates the chunk-type error from bytes
4-7, takes bytes `8 .. len-4` as data, fails with the length-mismatch error
when the declared length differs from `len - 12`, reads the last 4 bytes as
the declared big-endian CRC, fails with the CRC-mismatch error when it
differs from the recomputed CRC, and otherwise returns the chunk with exactly
those fields — with the checks applied in that order. -/
theorem claim_C3_parse_behavior (b : List Nat) :
    (b.length < 12 → Chunk.try_from b = .error (.chunkTooShort b.length)) ∧
    (12 ≤ b.length →
      (∀ e, ChunkType.try_from (b.getD 4 0) (b.getD 5 0) (b.getD 6 0) (b.getD 7 0) =
          .error e → Chunk.try_from b = .error e) ∧
      (∀ t, ChunkType.try_from (b.getD 4 0) (b.getD 5 0) (b.getD 6 0) (b.getD 7 0) =
          .ok t →
        (u32FromBeBytes (b.getD 0 0) (b.getD 1 0) (b.getD 2 0) (b.getD 3 0) ≠
            b.length - 12 →
          Chunk.try_from b = .error (.chunkLengthMismatch
            (u32FromBeBytes (b.getD 0 0) (b.getD 1 0) (b.getD 2 0) (b.getD 3 0))
            (b.length - 12))) ∧
        (u32FromBeBytes (b.getD 0 0) (b.getD 1 0) (b.getD 2 0) (b.getD 3 0) =
            b.length - 12 →
          (u32FromBeBytes (b.getD (b.length - 4) 0) (b.getD (b.length - 3) 0)
              (b.getD (b.length - 2) 0) (b.getD (b.length - 1) 0) ≠
              Chunk.compute_crc t.bytes ((b.drop 8).take (b.length - 12)) →
            Chunk.try_from b = .error (.chunkCrcMismatch
              (u32FromBeBytes (b.getD (b.length - 4) 0) (b.getD (b.length - 3) 0)
                (b.getD (b.length - 2) 0) (b.getD (b.length - 1) 0))
              (Chunk.compute_crc t.bytes ((b.drop 8).take (b.length - 12))))) ∧
          (u32FromBeBytes (b.getD (b.length - 4) 0) (b.getD (b.length - 3) 0)
              (b.getD (b.length - 2) 0) (b.getD (b.length - 1) 0) =
              Chunk.compute_crc t.bytes ((b.drop 8).take (b.length - 12)) →
            Chunk.try_from b = .ok
              ⟨u32FromBeBytes (b.getD 0 0) (b.getD 1 0) (b.getD 2 0) (b.getD 3 0), t,
                (b.drop 8).take (b.length - 12),
                u32FromBeBytes (b.getD (b.length - 4) 0) (b.getD (b.length - 3) 0)
                  (b.getD (b.length - 2) 0) (b.getD (b.length - 1) 0)⟩)))) :=
  try_from_cases b

theorem claim_C3_witness : Chunk.try_from [] = .error (.chunkTooShort 0) :=
  (claim_C3_parse_behavior []).1 (by decide)

/-- C4 (amended): flipping a single bit of the data region of a valid chunk's
serialization, or a bit of the type region such that the flipped type byte
still passes the chunk-type ASCII check, makes parsing fail with the
CRC-mismatch error. (As stated, the claim is false for type-region flips
that break the ASCII check: those fail with the chunk-type error instead,
because the type check runs before the CRC check.) -/
theorem claim_C4_bitflip_crc :
    (∀ c : Chunk, c.Valid → ∀ p j, 8 ≤ p → p < 8 + c.data.length → j < 8 →
      ∃ comp, Chunk.try_from (flipBit c.as_bytes p j) =
        .error (.chunkCrcMismatch c.crc comp)) ∧
    (∀ c : Chunk, c.Valid → ∀ q j, q < 4 → j < 8 →
      is_ascii_uppercase ((c.chunk_type.bytes.getD q 0 ^^^ 2 ^ j) &&& 0xDF) = true →
      ∃ comp, Chunk.try_from (flipBit c.as_bytes (4 + q) j) =
        .error (.chunkCrcMismatch c.crc comp)) := by
  constructor
  · intro c hv p j hp8 hplt hj
    have hp : p = 8 + (p - 8) := by omega
    rw [hp]
    exact ⟨_, flipBit_data_crcMismatch c hv (p - 8) j (by omega) hj⟩
  · intro c hv q j hq hj hok
    exact flipBit_type_crcMismatch c hv q j hq hj hok

theorem claim_C4_counterexample :
    sampleChunk.Valid ∧
      Chunk.try_from (flipBit sampleChunk.as_bytes 4 7) =
        .error (.invalidTypeByte 210) := by
  constructor
  · decide
  · decide

theorem claim_C4_witness :
    ∃ comp, Chunk.try_from (flipBit sampleChunk.as_bytes 8 0) =
      .error (.chunkCrcMismatch sampleChunk.crc comp) :=
  claim_C4_bitflip_crc.1 sampleChunk (by decide) 8 0 (by decide) (by decide) (by decide)

/-- C5 (amended): `Chunk::new` caches `data.len()` in `length` and enforces
the 2^31-1 bound (exactly 2^31-1 bytes succeed, one byte more fails with
`dataTooLarge`); a parsed chunk also satisfies `length = data.len()`, but
parsing does not enforce the 2^31-1 bound. (As stated, the claim is false:
`Chunk::try_from` contains no 2^31-1 check, so a buffer declaring 2^31 data
bytes with a matching CRC parses successfully.) -/
theorem claim_C5_length_invariants :
    (∀ (ct : ChunkType) (data : List Nat) (c : Chunk), Chunk.new ct data = .ok c →
      c.length = c.data.length ∧ c.data.length ≤ 2 ^ 31 - 1) ∧
    (∀ (ct : ChunkType) (data : List Nat), data.length = 2 ^ 31 - 1 →
      ∃ c, Chunk.new ct data = .ok c) ∧
    (∀ (ct : ChunkType) (data : List Nat), data.length = 2 ^ 31 →
      Chunk.new ct data = .error (.dataTooLarge (2 ^ 31))) ∧
    (∀ (b : List Nat) (c : Chunk), Chunk.try_from b = .ok c →
      c.length = c.data.length) := by
  refine ⟨?_, ?_, ?_, ?_⟩
  · intro ct data c h
    obtain ⟨hc, hle⟩ := new_ok_inv h
    subst hc
    exact ⟨rfl, hle⟩
  · intro ct data h
    refine ⟨⟨data.length, ct, data, Chunk.compute_crc ct.bytes data⟩, ?_⟩
    unfold Chunk.new
    rw [if_pos (by rw [h]; norm_num)]
  · intro ct data h
    unfold Chunk.new
    rw [if_neg (by rw [h]; norm_num), h]
  · intro b c h
    exact try_from_ok_length h

theorem claim_C5_counterexample :
    Chunk.try_from bigChunk.as_bytes = .ok bigChunk ∧
      2 ^ 31 - 1 < bigChunk.data.length := by
  refine ⟨try_from_as_bytes bigChunk_valid, ?_⟩
  show 2 ^ 31 - 1 < (List.replicate (2 ^ 31) 0).length
  rw [List.length_replicate]
  norm_num

theorem claim_C5_witness :
    sampleChunk.length = sampleChunk.data.length ∧
      sampleChunk.data.length ≤ 2 ^ 31 - 1 :=
  claim_C5_length_invariants.1 ⟨82, 117, 83, 116⟩ [42] sampleChunk (by decide)

/-- C6: constructing a `ChunkType` from 4 raw bytes succeeds iff every byte,
after clearing bit 5, is an uppercase ASCII letter (equivalently, every byte
is an ASCII letter); otherwise the error identifies an offending byte.
Construction from a string fails with the length error iff the string is not
exactly 4 bytes, and otherwise delegates to the byte constructor. -/
theorem claim_C6_chunk_type_construction :
    ∀ b0 b1 b2 b3 : Nat, b0 < 256 → b1 < 256 → b2 < 256 → b3 < 256 →
    ((∃ t, ChunkType.try_from b0 b1 b2 b3 = .ok t) ↔
      (isAsciiLetter b0 ∧ isAsciiLetter b1 ∧ isAsciiLetter b2 ∧ isAsciiLetter b3)) ∧
    (∀ e, ChunkType.try_from b0 b1 b2 b3 = .error e →
      ∃ bb, bb ∈ [b0, b1, b2, b3] ∧ ¬isAsciiLetter bb ∧ e = .invalidTypeByte bb) ∧
    (∀ s : List Nat,
      (ChunkType.from_str s = .error (.invalidTypeLength s) ↔ s.length ≠ 4)) ∧
    (∀ s : List Nat, s.length = 4 →
      ChunkType.from_str s =
        ChunkType.try_from (s.getD 0 0) (s.getD 1 0) (s.getD 2 0) (s.getD 3 0)) := by
  intro b0 b1 b2 b3 h0 h1 h2 h3
  refine ⟨?_, ?_, ?_, ?_⟩
  · constructor
    · rintro ⟨t, ht⟩
      obtain ⟨c0, c1, c2, c3, -⟩ := try_from_checks ht
      exact ⟨(typeByteCheck_iff b0 h0).mp c0, (typeByteCheck_iff b1 h1).mp c1,
        (typeByteCheck_iff b2 h2).mp c2, (typeByteCheck_iff b3 h3).mp c3⟩
    · rintro ⟨l0, l1, l2, l3⟩
      exact ⟨_, try_from_of_checks ((typeByteCheck_iff b0 h0).mpr l0)
        ((typeByteCheck_iff b1 h1).mpr l1) ((typeByteCheck_iff b2 h2).mpr l2)
        ((typeByteCheck_iff b3 h3).mpr l3)⟩
  · intro e he
    obtain ⟨bb, hmem, hchk, hshape⟩ := try_from_error_shape he
    have hbb : bb < 256 := by
      simp only [List.mem_cons, List.mem_singleton] at hmem
      rcases hmem with rfl | rfl | rfl | rfl | h
      · omega
      · omega
      · omega
      · omega
      · simp at h
    refine ⟨bb, hmem, ?_, hshape⟩
    intro hl
    rw [← typeByteCheck_iff bb hbb] at hl
    rw [hl] at hchk
    exact absurd hchk (by simp)
  · intro s
    constructor
    · intro h hs4
      unfold ChunkType.from_str at h
      rw [if_neg (by omega)] at h
      obtain ⟨bb, -, -, he⟩ := try_from_error_shape h
      exact absurd he (by simp)
    · intro h
      unfold ChunkType.from_str
      rw [if_pos h]
  · intro s h4
    unfold ChunkType.from_str
    rw [if_neg (by omega)]

theorem claim_C6_witness :
    (∃ t, ChunkType.try_from 82 117 83 116 = .ok t) ↔
      (isAsciiLetter 82 ∧ isAsciiLetter 117 ∧ isAsciiLetter 83 ∧ isAsciiLetter 116) :=
  (claim_C6_chunk_type_construction 82 117 83 116 (by decide) (by decide)
    (by decide) (by decide)).1

/-- C7: the four property predicates each read bit 5 of one tag byte
(`is_critical`/`is_public`/`is_reserved_bit_valid` hold iff the bit is clear
on bytes 0/1/2; `is_safe_to_copy` holds iff the bit is set on byte 3), and
`is_valid` equals `is_reserved_bit_valid` exactly; concretely, tag "RuSt" is
critical, not public, reserved-bit-valid, and safe-to-copy. -/
theorem claim_C7_property_bits :
    (∀ t : ChunkType,
      (t.is_critical = true ↔ t.b0.testBit 5 = false) ∧
      (t.is_public = true ↔ t.b1.testBit 5 = false) ∧
      (t.is_reserved_bit_valid = true ↔ t.b2.testBit 5 = false) ∧
      (t.is_safe_to_copy = true ↔ t.b3.testBit 5 = true) ∧
      t.is_valid = t.is_reserved_bit_valid) ∧
    ((ChunkType.mk 82 117 83 116).is_critical = true ∧
      (ChunkType.mk 82 117 83 116).is_public = false ∧
      (ChunkType.mk 82 117 83 116).is_reserved_bit_valid = true ∧
      (ChunkType.mk 82 117 83 116).is_safe_to_copy = true) := by
  constructor
  · intro t
    exact ⟨bit5_clear_iff t.b0, bit5_clear_iff t.b1, bit5_clear_iff t.b2,
      bit5_set_iff t.b3, rfl⟩
  · decide

/-- C8: the encode operation (modelled on the already-parsed datastream, with
the file I/O elided; the `PNG` carrier is modelled from the spec since
src/png.rs is not among the sources) rejects the caller-chosen tag with the
policy error, appending nothing, iff the tag is critical, or public, or not
valid, or not safe-to-copy; when all four conditions are satisfied it appends
the chunk built from tag and message to the datastream. -/
theorem claim_C8_encode_policy :
    ∀ (png : PNG) (s msg : List Nat) (ct : ChunkType),
      ChunkType.from_str s = .ok ct →
      ((invoke_encode png s msg = .error .policyViolation) ↔
        (ct.is_critical || ct.is_public || !ct.is_valid || !ct.is_safe_to_copy) = true) ∧
      ((ct.is_critical = false ∧ ct.is_public = false ∧ ct.is_valid = true ∧
          ct.is_safe_to_copy = true) →
        ∀ c, Chunk.new ct msg = .ok c →
          invoke_encode png s msg = .ok ⟨png.chunks ++ [c]⟩) := by
  intro png s msg ct h
  constructor
  · constructor
    · intro he
      by_contra hcond
      have hcond' : (ct.is_critical || ct.is_public || !ct.is_valid ||
          !ct.is_safe_to_copy) = false := by
        rcases Bool.eq_false_or_eq_true (ct.is_critical || ct.is_public ||
          !ct.is_valid || !ct.is_safe_to_copy) with ht | hf
        · exact absurd ht hcond
        · exact hf
      unfold invoke_encode at he
      simp only [h] at he
      rw [hcond'] at he
      simp only [Bool.false_eq_true, if_false] at he
      rcases hnew : Chunk.new ct msg with e | cc
      · rw [hnew] at he
        obtain ⟨he2, -⟩ := new_error_inv hnew
        rw [Except.error.injEq] at he
        rw [he2] at he
        exact absurd he (by simp)
      · rw [hnew] at he
        exact absurd he (by simp)
    · intro hcond
      unfold invoke_encode
      simp only [h]
      rw [if_pos hcond]
  · rintro ⟨hc1, hc2, hc3, hc4⟩ c hnew
    unfold invoke_encode
    simp only [h]
    rw [if_neg (by simp [hc1, hc2, hc3, hc4])]
    rw [hnew]
    simp [PNG.append_chunk]

theorem claim_C8_witness :
    invoke_encode ⟨[]⟩ [114, 117, 83, 116] [104, 105] =
      .ok ⟨[⟨2, ⟨114, 117, 83, 116⟩, [104, 105],
        Chunk.compute_crc [114, 117, 83, 116] [104, 105]⟩]⟩ := by
  have h := (claim_C8_encode_policy ⟨[]⟩ [114, 117, 83, 116] [104, 105]
      ⟨114, 117, 83, 116⟩ (by decide)).2 (by decide)
      ⟨2, ⟨114, 117, 83, 116⟩, [104, 105],
        Chunk.compute_crc [114, 117, 83, 116] [104, 105]⟩ (by decide)
  simpa using h

/-- C9: serialization returns exactly the concatenation, in order, of the
4-byte big-endian length, the 4 raw chunk-type bytes, the data bytes
(possibly empty), and the 4-byte big-endian CRC; the buffer's total size is
exactly `12 + data.len()`. -/
theorem claim_C9_serialization_layout :
    ∀ c : Chunk,
      c.as_bytes = u32ToBeBytes c.length ++ c.chunk_type.bytes ++ c.data ++
        u32ToBeBytes c.crc ∧
      c.as_bytes.length = 12 + c.data.length := by
  intro c
  refine ⟨as_bytes_eq c, ?_⟩
  rw [as_bytes_eq]
  simp [u32ToBeBytes, ChunkType.bytes]
  omega

/-- C10: parsing accepts only a slice that is exactly one whole chunk:
appending any non-empty suffix to a valid chunk's serialization makes
parsing fail with the length-mismatch error (rather than parsing the chunk
as a prefix and ignoring the remainder), because the data region is taken as
bytes `8 .. len-4` of the whole input. -/
theorem claim_C10_no_trailing_bytes :
    ∀ c : Chunk, c.Valid → ∀ extra : List Nat, extra ≠ [] →
      Chunk.try_from (c.as_bytes ++ extra) =
        .error (.chunkLengthMismatch c.length (c.data.length + extra.length)) :=
  fun _ hv extra hx => try_from_append_extra hv extra hx

theorem claim_C10_witness :
    Chunk.try_from (sampleChunk.as_bytes ++ [0]) =
      .error (.chunkLengthMismatch sampleChunk.length
        (sampleChunk.data.length + [0].length)) :=
  claim_C10_no_trailing_bytes sampleChunk (by decide) [0] (by decide)
